import Mathlib

/-!
Verification of the three-phase power-factor monitor firmware
(`power_factor_monitor.ino`), shallowly embedded over the reals.

The floating-point values of the firmware are modelled as real numbers; the stream of raw
ADC readings consumed by the sampling loop is modelled as an input list
of (rawV, rawI) pairs.
-/

namespace PFMon

noncomputable section

/-- ADC full-scale code, `#define ADC_MAX 4095.0`. -/
def ADC_MAX : ℝ := 4095

/-- ADC reference voltage, `#define ADC_VREF 3.3`. -/
def ADC_VREF : ℝ := 3.3

/-- Source: `const float VOLTAGE_CALIBRATION = 234.26;` -/
def VOLTAGE_CALIBRATION : ℝ := 234.26

/-- Source: `const float ACS712_SENSITIVITY = 0.066;` -/
def ACS712_SENSITIVITY : ℝ := 0.066

/-- Source: `const float ACS712_OFFSET = ADC_VREF / 2.0;` -/
def ACS712_OFFSET : ℝ := ADC_VREF / 2

/-- Source: `const int SAMPLES_PER_CYCLE = 200;` -/
def SAMPLES_PER_CYCLE : ℕ := 200

/-- Source: `const int NUM_CYCLES = 5;` -/
def NUM_CYCLES : ℕ := 5

/-- Source: `int totalSamples = SAMPLES_PER_CYCLE * NUM_CYCLES;` -/
def totalSamples : ℕ := SAMPLES_PER_CYCLE * NUM_CYCLES

/-- Source: `const float PF_THRESHOLD = 0.85;` -/
def PF_THRESHOLD : ℝ := 0.85

/-- Arduino macro `constrain(amt, low, high)`:
`((amt)<(low)?(low):((amt)>(high)?(high):(amt)))`. -/
noncomputable def constrain (x lo hi : ℝ) : ℝ :=
  if x < lo then lo else if x > hi then hi else x

/-- Zero-centered instantaneous voltage from a raw ADC code:
`float adcV = (rawV / ADC_MAX) * ADC_VREF; float v = adcV - (ADC_VREF / 2.0);` -/
def voltsOf (rawV : ℝ) : ℝ :=
  (rawV / ADC_MAX) * ADC_VREF - ADC_VREF / 2

/-- Instantaneous current from a raw ADC code:
`float adcI = (rawI / ADC_MAX) * ADC_VREF;
 float current = (adcI - ACS712_OFFSET) / ACS712_SENSITIVITY;` -/
def ampsOf (rawI : ℝ) : ℝ :=
  ((rawI / ADC_MAX) * ADC_VREF - ACS712_OFFSET) / ACS712_SENSITIVITY

/-- Source: `struct PhaseData`, field for field. -/
structure PhaseData where
  voltageRms : ℝ
  currentRms : ℝ
  powerFactor : ℝ
  realPower : ℝ
  apparentPower : ℝ
  reactivePower : ℝ

/-- One iteration of the sampling loop of `measurePhase`: the accumulator is
`(sumVSq, sumISq, sumVI, prevV, prevI)`; the body adds `v*v`, `i*i`, `v*i`
to the running sums and then assigns `prevV = v; prevI = current;`. -/
def accumStep (acc : ℝ × ℝ × ℝ × ℝ × ℝ) (p : ℝ × ℝ) : ℝ × ℝ × ℝ × ℝ × ℝ :=
  (acc.1 + voltsOf p.1 * voltsOf p.1,
   acc.2.1 + ampsOf p.2 * ampsOf p.2,
   acc.2.2.1 + voltsOf p.1 * ampsOf p.2,
   voltsOf p.1, ampsOf p.2)

/-- The whole sampling loop: `float sumVSq = 0, sumISq = 0, sumVI = 0;`
`float prevV = 0, prevI = 0;` then `for (i = 0; i < totalSamples; i++) ...`
over the stream of raw readings. -/
def accumulate (s : List (ℝ × ℝ)) : ℝ × ℝ × ℝ × ℝ × ℝ :=
  s.foldl accumStep (0, 0, 0, 0, 0)

/-- Closed form of the accumulated `sumVSq`. -/
def sumVSqL (s : List (ℝ × ℝ)) : ℝ := (s.map fun p => voltsOf p.1 ^ 2).sum

/-- Closed form of the accumulated `sumISq`. -/
def sumISqL (s : List (ℝ × ℝ)) : ℝ := (s.map fun p => ampsOf p.2 ^ 2).sum

/-- Closed form of the accumulated `sumVI`. -/
def sumVIL (s : List (ℝ × ℝ)) : ℝ := (s.map fun p => voltsOf p.1 * ampsOf p.2).sum

/-- Source: `result.voltageRms = sqrt(sumVSq / totalSamples) * VOLTAGE_CALIBRATION;` -/
noncomputable def voltageRmsOf (s : List (ℝ × ℝ)) : ℝ :=
  Real.sqrt ((accumulate s).1 / s.length) * VOLTAGE_CALIBRATION

/-- Source: `result.currentRms = sqrt(sumISq / totalSamples);` -/
noncomputable def currentRmsOf (s : List (ℝ × ℝ)) : ℝ :=
  Real.sqrt ((accumulate s).2.1 / s.length)

/-- Source: `float avgVI = sumVI / totalSamples; result.realPower = avgVI * VOLTAGE_CALIBRATION;` -/
noncomputable def realPowerOf (s : List (ℝ × ℝ)) : ℝ :=
  ((accumulate s).2.2.1 / s.length) * VOLTAGE_CALIBRATION

/-- Source: `result.apparentPower = result.voltageRms * result.currentRms;` -/
noncomputable def apparentPowerOf (s : List (ℝ × ℝ)) : ℝ :=
  voltageRmsOf s * currentRmsOf s

/-- Source: under the guard `if (result.apparentPower > 0)` the firmware sets
`pf = realPower / apparentPower`, then `pf = constrain(pf, -1.0, 1.0)`, then
`pf = abs(pf)`; otherwise the field keeps its initial 0. -/
noncomputable def powerFactorOf (s : List (ℝ × ℝ)) : ℝ :=
  if apparentPowerOf s > 0 then
    |constrain (realPowerOf s / apparentPowerOf s) (-1) 1|
  else 0

/-- Source: `result.reactivePower = sqrt(max(0.0f, apparentPower^2 - realPower^2));` -/
noncomputable def reactivePowerOf (s : List (ℝ × ℝ)) : ℝ :=
  Real.sqrt (max 0 (apparentPowerOf s * apparentPowerOf s - realPowerOf s * realPowerOf s))

/-- Source: `PhaseData measurePhase(int voltagePin, int currentPin)`: the result starts
as `{0, 0, 0, 0, 0, 0}`; RMS fields are always filled in; the power fields are
filled in only under the noise-floor guard `result.currentRms > 0.05`. -/
noncomputable def measurePhase (s : List (ℝ × ℝ)) : PhaseData :=
  if currentRmsOf s > 0.05 then
    ⟨voltageRmsOf s, currentRmsOf s, powerFactorOf s, realPowerOf s,
     apparentPowerOf s, reactivePowerOf s⟩
  else
    ⟨voltageRmsOf s, currentRmsOf s, 0, 0, 0, 0⟩

/-- Variant of the loop body with the dead `prevV = v; prevI = current;`
assignments removed: the accumulator is only `(sumVSq, sumISq, sumVI)`. -/
def accumStepNP (acc : ℝ × ℝ × ℝ) (p : ℝ × ℝ) : ℝ × ℝ × ℝ :=
  (acc.1 + voltsOf p.1 * voltsOf p.1,
   acc.2.1 + ampsOf p.2 * ampsOf p.2,
   acc.2.2 + voltsOf p.1 * ampsOf p.2)

/-- The sampling loop with the dead previous-sample assignments removed. -/
def accumulateNP (s : List (ℝ × ℝ)) : ℝ × ℝ × ℝ :=
  s.foldl accumStepNP (0, 0, 0)

/-- Result of `measurePhase` recomputed from the prev-free loop. -/
noncomputable def measurePhaseNP (s : List (ℝ × ℝ)) : PhaseData :=
  if Real.sqrt ((accumulateNP s).2.1 / s.length) > 0.05 then
    ⟨Real.sqrt ((accumulateNP s).1 / s.length) * VOLTAGE_CALIBRATION,
     Real.sqrt ((accumulateNP s).2.1 / s.length),
     (if (Real.sqrt ((accumulateNP s).1 / s.length) * VOLTAGE_CALIBRATION) *
          Real.sqrt ((accumulateNP s).2.1 / s.length) > 0 then
        |constrain (((accumulateNP s).2.2 / s.length) * VOLTAGE_CALIBRATION /
          ((Real.sqrt ((accumulateNP s).1 / s.length) * VOLTAGE_CALIBRATION) *
            Real.sqrt ((accumulateNP s).2.1 / s.length))) (-1) 1|
      else 0),
     ((accumulateNP s).2.2 / s.length) * VOLTAGE_CALIBRATION,
     (Real.sqrt ((accumulateNP s).1 / s.length) * VOLTAGE_CALIBRATION) *
       Real.sqrt ((accumulateNP s).2.1 / s.length),
     Real.sqrt (max 0
       ((Real.sqrt ((accumulateNP s).1 / s.length) * VOLTAGE_CALIBRATION) *
          Real.sqrt ((accumulateNP s).2.1 / s.length) *
          ((Real.sqrt ((accumulateNP s).1 / s.length) * VOLTAGE_CALIBRATION) *
            Real.sqrt ((accumulateNP s).2.1 / s.length)) -
        ((accumulateNP s).2.2 / s.length) * VOLTAGE_CALIBRATION *
          (((accumulateNP s).2.2 / s.length) * VOLTAGE_CALIBRATION)))⟩
  else
    ⟨Real.sqrt ((accumulateNP s).1 / s.length) * VOLTAGE_CALIBRATION,
     Real.sqrt ((accumulateNP s).2.1 / s.length), 0, 0, 0, 0⟩

/-- One iteration of the aggregation loop in `loop()`:
`totalRealPower += phases[i].realPower; totalApparentPower += phases[i].apparentPower;` -/
def totalsStep (acc : ℝ × ℝ) (p : PhaseData) : ℝ × ℝ :=
  (acc.1 + p.realPower, acc.2 + p.apparentPower)

/-- The aggregation loop over the measured phases, starting from
`float totalRealPower = 0, totalApparentPower = 0;`. -/
def totalsOf (ps : List PhaseData) : ℝ × ℝ :=
  ps.foldl totalsStep (0, 0)

/-- The overall results computed after the loop in `loop()`. -/
structure SystemTotals where
  totalRealPower : ℝ
  totalApparentPower : ℝ
  overallPF : ℝ
  totalReactivePower : ℝ

/-- The overall computation of `loop()`: `float overallPF = 0;
float totalReactivePower = 0; if (totalApparentPower > 0) {
overallPF = totalRealPower / totalApparentPower;
overallPF = constrain(abs(overallPF), 0.0f, 1.0f);
totalReactivePower = sqrt(max(0.0f, totalApparentPower*totalApparentPower
- totalRealPower*totalRealPower)); }` -/
noncomputable def aggregate (ps : List PhaseData) : SystemTotals :=
  if (totalsOf ps).2 > 0 then
    ⟨(totalsOf ps).1, (totalsOf ps).2,
     constrain |(totalsOf ps).1 / (totalsOf ps).2| 0 1,
     Real.sqrt (max 0 ((totalsOf ps).2 * (totalsOf ps).2 -
       (totalsOf ps).1 * (totalsOf ps).1))⟩
  else
    ⟨(totalsOf ps).1, (totalsOf ps).2, 0, 0⟩

/-- One iteration of the alert check in the measurement loop:
`if (phases[i].powerFactor > 0.01 && phases[i].powerFactor < PF_THRESHOLD)
{ anyLowPF = true; }`, parametrized by the threshold. -/
def lowPFStep (th : ℝ) (acc : Prop) (p : PhaseData) : Prop :=
  acc ∨ (p.powerFactor > 0.01 ∧ p.powerFactor < th)

/-- The alert flag `bool anyLowPF = false;` threaded through the loop. -/
def anyLowPF (th : ℝ) (ps : List PhaseData) : Prop :=
  ps.foldl (lowPFStep th) False

/-! ### Concrete inputs used to witness the theorems -/

/-- A raw reading pair sitting exactly at the ADC midpoint: both channels
decode to 0 V and 0 A. -/
def midSample : ℝ × ℝ := (2047.5, 2047.5)

/-- A full window of midpoint readings: an idle channel. -/
def sZero : List (ℝ × ℝ) := List.replicate totalSamples midSample

/-- A full window of full-scale readings: both decoded signals are the
constant 1.65, so current is proportional to voltage (in phase). -/
def sFull : List (ℝ × ℝ) := List.replicate totalSamples ((4095 : ℝ), (4095 : ℝ))

/-- A phase record carrying only a power factor, for the alert examples. -/
def pfPhase (x : ℝ) : PhaseData := ⟨0, 0, x, 0, 0, 0⟩

/-- A phase record with every field 1. -/
def pOnes : PhaseData := ⟨1, 1, 1, 1, 1, 1⟩

/-- A phase record whose `powerFactor` field (0.3) is inconsistent with its
`realPower`/`apparentPower` fields (both 1): a legal record under the data
model with its stated invariants, but not a `measurePhase` output. -/
def mBad : PhaseData := ⟨230, 1, 0.3, 1, 1, 0⟩

/-! ### Helper lemmas about the accumulation loops -/

lemma accum_proj (s : List (ℝ × ℝ)) : ∀ a b c d e : ℝ,
    (s.foldl accumStep (a, b, c, d, e)).1 = a + sumVSqL s ∧
    (s.foldl accumStep (a, b, c, d, e)).2.1 = b + sumISqL s ∧
    (s.foldl accumStep (a, b, c, d, e)).2.2.1 = c + sumVIL s := by
  induction s with
  | nil => intro a b c d e; simp [sumVSqL, sumISqL, sumVIL]
  | cons p t ih =>
    intro a b c d e
    simp only [List.foldl_cons, accumStep]
    obtain ⟨h1, h2, h3⟩ := ih (a + voltsOf p.1 * voltsOf p.1)
      (b + ampsOf p.2 * ampsOf p.2) (c + voltsOf p.1 * ampsOf p.2)
      (voltsOf p.1) (ampsOf p.2)
    refine ⟨?_, ?_, ?_⟩
    · rw [h1]; simp [sumVSqL]; ring
    · rw [h2]; simp [sumISqL]; ring
    · rw [h3]; simp [sumVIL]; ring

lemma accumulate_fst (s : List (ℝ × ℝ)) : (accumulate s).1 = sumVSqL s := by
  have h := (accum_proj s 0 0 0 0 0).1
  simpa [accumulate] using h

lemma accumulate_snd (s : List (ℝ × ℝ)) : (accumulate s).2.1 = sumISqL s := by
  have h := (accum_proj s 0 0 0 0 0).2.1
  simpa [accumulate] using h

lemma accumulate_vi (s : List (ℝ × ℝ)) : (accumulate s).2.2.1 = sumVIL s := by
  have h := (accum_proj s 0 0 0 0 0).2.2
  simpa [accumulate] using h

lemma accumNP_proj (s : List (ℝ × ℝ)) : ∀ a b c : ℝ,
    s.foldl accumStepNP (a, b, c) = (a + sumVSqL s, b + sumISqL s, c + sumVIL s) := by
  induction s with
  | nil => intro a b c; simp [sumVSqL, sumISqL, sumVIL]
  | cons p t ih =>
    intro a b c
    simp only [List.foldl_cons, accumStepNP]
    rw [ih (a + voltsOf p.1 * voltsOf p.1) (b + ampsOf p.2 * ampsOf p.2)
      (c + voltsOf p.1 * ampsOf p.2)]
    simp [sumVSqL, sumISqL, sumVIL]
    refine ⟨by ring, by ring, by ring⟩

lemma accumulateNP_eq (s : List (ℝ × ℝ)) :
    accumulateNP s = ((accumulate s).1, (accumulate s).2.1, (accumulate s).2.2.1) := by
  rw [accumulate_fst, accumulate_snd, accumulate_vi, accumulateNP]
  have h := accumNP_proj s 0 0 0
  simpa using h

/-! ### Closed forms for the per-phase quantities -/

lemma voltageRmsOf_eq (s : List (ℝ × ℝ)) :
    voltageRmsOf s = Real.sqrt (sumVSqL s / s.length) * VOLTAGE_CALIBRATION := by
  rw [voltageRmsOf, accumulate_fst]

lemma currentRmsOf_eq (s : List (ℝ × ℝ)) :
    currentRmsOf s = Real.sqrt (sumISqL s / s.length) := by
  rw [currentRmsOf, accumulate_snd]

lemma realPowerOf_eq (s : List (ℝ × ℝ)) :
    realPowerOf s = (sumVIL s / s.length) * VOLTAGE_CALIBRATION := by
  rw [realPowerOf, accumulate_vi]

lemma measurePhase_voltageRms (s : List (ℝ × ℝ)) :
    (measurePhase s).voltageRms = voltageRmsOf s := by
  unfold measurePhase; split <;> rfl

lemma measurePhase_currentRms (s : List (ℝ × ℝ)) :
    (measurePhase s).currentRms = currentRmsOf s := by
  unfold measurePhase; split <;> rfl

lemma measurePhase_of_pos (s : List (ℝ × ℝ)) (h : currentRmsOf s > 0.05) :
    measurePhase s = ⟨voltageRmsOf s, currentRmsOf s, powerFactorOf s, realPowerOf s,
      apparentPowerOf s, reactivePowerOf s⟩ := by
  rw [measurePhase, if_pos h]

lemma measurePhase_of_le (s : List (ℝ × ℝ)) (h : ¬ currentRmsOf s > 0.05) :
    measurePhase s = ⟨voltageRmsOf s, currentRmsOf s, 0, 0, 0, 0⟩ := by
  rw [measurePhase, if_neg h]

/-! ### Helper lemmas about `constrain` -/

lemma le_constrain (x lo hi : ℝ) (h : lo ≤ hi) : lo ≤ constrain x lo hi := by
  unfold constrain
  split_ifs with h1 h2
  · exact le_refl lo
  · exact h
  · linarith [not_lt.mp h1]

lemma constrain_le (x lo hi : ℝ) (h : lo ≤ hi) : constrain x lo hi ≤ hi := by
  unfold constrain
  split_ifs with h1 h2
  · exact h
  · exact le_refl hi
  · exact not_lt.mp h2

lemma abs_constrain (x : ℝ) : |constrain x (-1) 1| = constrain |x| 0 1 := by
  unfold constrain
  rcases le_or_lt 0 x with hx | hx
  · rw [abs_of_nonneg hx]
    split_ifs with h1 h2 h3 h4 h5 h6 <;>
      first
        | rfl
        | linarith
        | (rw [abs_of_nonneg]; linarith)
  · rw [abs_of_neg hx]
    split_ifs with h1 h2 h3 h4 h5 h6 <;>
      first
        | rfl
        | linarith
        | simp [abs_of_nonneg, abs_of_neg, hx]

/-! ### Sign facts -/

lemma sumVSqL_nonneg (s : List (ℝ × ℝ)) : 0 ≤ sumVSqL s := by
  apply List.sum_nonneg
  intro x hx
  obtain ⟨p, _, rfl⟩ := List.mem_map.mp hx
  exact sq_nonneg _

lemma sumISqL_nonneg (s : List (ℝ × ℝ)) : 0 ≤ sumISqL s := by
  apply List.sum_nonneg
  intro x hx
  obtain ⟨p, _, rfl⟩ := List.mem_map.mp hx
  exact sq_nonneg _

lemma VOLTAGE_CALIBRATION_pos : (0 : ℝ) < VOLTAGE_CALIBRATION := by
  norm_num [VOLTAGE_CALIBRATION]

lemma voltageRmsOf_nonneg (s : List (ℝ × ℝ)) : 0 ≤ voltageRmsOf s :=
  mul_nonneg (Real.sqrt_nonneg _) VOLTAGE_CALIBRATION_pos.le

lemma currentRmsOf_nonneg (s : List (ℝ × ℝ)) : 0 ≤ currentRmsOf s :=
  Real.sqrt_nonneg _

lemma apparentPowerOf_nonneg (s : List (ℝ × ℝ)) : 0 ≤ apparentPowerOf s :=
  mul_nonneg (voltageRmsOf_nonneg s) (currentRmsOf_nonneg s)

lemma powerFactorOf_nonneg (s : List (ℝ × ℝ)) : 0 ≤ powerFactorOf s := by
  unfold powerFactorOf
  split
  · exact abs_nonneg _
  · exact le_refl 0

lemma powerFactorOf_le_one (s : List (ℝ × ℝ)) : powerFactorOf s ≤ 1 := by
  unfold powerFactorOf
  split
  · exact abs_le.mpr ⟨le_constrain _ _ _ (by norm_num), constrain_le _ _ _ (by norm_num)⟩
  · norm_num

/-! ### The aggregation and alert loops on three phases -/

lemma totalsOf_triple (p1 p2 p3 : PhaseData) :
    totalsOf [p1, p2, p3] =
      (p1.realPower + p2.realPower + p3.realPower,
       p1.apparentPower + p2.apparentPower + p3.apparentPower) := by
  simp [totalsOf, totalsStep]

lemma aggregate_totalReal (ps : List PhaseData) :
    (aggregate ps).totalRealPower = (totalsOf ps).1 := by
  unfold aggregate; split <;> rfl

lemma aggregate_totalApparent (ps : List PhaseData) :
    (aggregate ps).totalApparentPower = (totalsOf ps).2 := by
  unfold aggregate; split <;> rfl

lemma aggregate_of_pos (ps : List PhaseData) (h : (totalsOf ps).2 > 0) :
    aggregate ps =
      ⟨(totalsOf ps).1, (totalsOf ps).2,
       constrain |(totalsOf ps).1 / (totalsOf ps).2| 0 1,
       Real.sqrt (max 0 ((totalsOf ps).2 * (totalsOf ps).2 -
         (totalsOf ps).1 * (totalsOf ps).1))⟩ := by
  rw [aggregate, if_pos h]

lemma aggregate_of_le (ps : List PhaseData) (h : ¬ (totalsOf ps).2 > 0) :
    aggregate ps = ⟨(totalsOf ps).1, (totalsOf ps).2, 0, 0⟩ := by
  rw [aggregate, if_neg h]

lemma anyLowPF_triple (th : ℝ) (p1 p2 p3 : PhaseData) :
    anyLowPF th [p1, p2, p3] ↔
      ((p1.powerFactor > 0.01 ∧ p1.powerFactor < th) ∨
       (p2.powerFactor > 0.01 ∧ p2.powerFactor < th) ∨
       (p3.powerFactor > 0.01 ∧ p3.powerFactor < th)) := by
  simp [anyLowPF, lowPFStep, or_assoc]

/-! ### Sums over constant windows and proportional windows -/

lemma sum_map_replicate (n : ℕ) (f : ℝ × ℝ → ℝ) (p : ℝ × ℝ) :
    ((List.replicate n p).map f).sum = n * f p := by
  rw [List.map_replicate, List.sum_replicate, nsmul_eq_mul]

lemma prop_sums (c : ℝ) : ∀ s : List (ℝ × ℝ),
    (∀ p ∈ s, ampsOf p.2 = c * voltsOf p.1) →
    sumISqL s = c ^ 2 * sumVSqL s ∧ sumVIL s = c * sumVSqL s := by
  intro s
  induction s with
  | nil => intro _; simp [sumISqL, sumVSqL, sumVIL]
  | cons p t ih =>
    intro h
    obtain ⟨h1, h2⟩ := ih fun q hq => h q (List.mem_cons_of_mem p hq)
    have hp := h p (List.mem_cons_self p t)
    have e1 : sumISqL (p :: t) = ampsOf p.2 ^ 2 + sumISqL t := by simp [sumISqL]
    have e2 : sumVSqL (p :: t) = voltsOf p.1 ^ 2 + sumVSqL t := by simp [sumVSqL]
    have e3 : sumVIL (p :: t) = voltsOf p.1 * ampsOf p.2 + sumVIL t := by simp [sumVIL]
    constructor
    · rw [e1, e2, h1, hp]; ring
    · rw [e3, e2, h2, hp]; ring

/-! ### Evaluation on the concrete windows -/

lemma ampsOf_mid : ampsOf 2047.5 = 0 := by
  norm_num [ampsOf, ADC_MAX, ADC_VREF, ACS712_OFFSET, ACS712_SENSITIVITY]

lemma ampsOf_full : ampsOf 4095 = 25 := by
  norm_num [ampsOf, ADC_MAX, ADC_VREF, ACS712_OFFSET, ACS712_SENSITIVITY]

lemma voltsOf_full : voltsOf 4095 = 1.65 := by
  norm_num [voltsOf, ADC_MAX, ADC_VREF]

lemma sZero_length : sZero.length = totalSamples := by
  simp [sZero]

lemma sZero_currentRms : currentRmsOf sZero = 0 := by
  rw [currentRmsOf_eq]
  have h : sumISqL sZero = 0 := by
    rw [sumISqL, sZero, sum_map_replicate]
    simp [midSample, ampsOf_mid]
  rw [h]
  simp

lemma sFull_currentRms : currentRmsOf sFull = 25 := by
  rw [currentRmsOf_eq]
  have h : sumISqL sFull = 625000 := by
    rw [sumISqL, sFull, sum_map_replicate]
    norm_num [ampsOf_full, totalSamples, SAMPLES_PER_CYCLE, NUM_CYCLES]
  have hl : ((sFull.length : ℕ) : ℝ) = 1000 := by
    norm_num [sFull, totalSamples, SAMPLES_PER_CYCLE, NUM_CYCLES]
  rw [h, hl]
  rw [show (625000 : ℝ) / 1000 = 25 ^ 2 by norm_num]
  exact Real.sqrt_sq (by norm_num)

/-! ### The claims -/

/-- Claim C1: over a window of `totalSamples` raw pairs, `measurePhase`
returns `voltageRms = sqrt(mean(v^2)) * VOLTAGE_CALIBRATION` and
`currentRms = sqrt(mean(i^2))` with `v`/`i` the decoded zero-centered
signals; and above the noise floor, `realPower = mean(v*i) *
VOLTAGE_CALIBRATION`, `apparentPower = voltageRms * currentRms`,
`powerFactor = clamp(|realPower/apparentPower|, 0, 1)` guarded against zero
apparent power, and `reactivePower = sqrt(max 0 (apparentPower^2 -
realPower^2))`. -/
theorem measurePhase_formulas (s : List (ℝ × ℝ)) (h : s.length = totalSamples) :
    (measurePhase s).voltageRms =
      Real.sqrt ((s.map fun p => voltsOf p.1 ^ 2).sum / (totalSamples : ℝ)) *
        VOLTAGE_CALIBRATION ∧
    (measurePhase s).currentRms =
      Real.sqrt ((s.map fun p => ampsOf p.2 ^ 2).sum / (totalSamples : ℝ)) ∧
    ((measurePhase s).currentRms > 0.05 →
      (measurePhase s).realPower =
        ((s.map fun p => voltsOf p.1 * ampsOf p.2).sum / (totalSamples : ℝ)) *
          VOLTAGE_CALIBRATION ∧
      (measurePhase s).apparentPower =
        (measurePhase s).voltageRms * (measurePhase s).currentRms ∧
      ((measurePhase s).apparentPower > 0 →
        (measurePhase s).powerFactor =
          constrain |(measurePhase s).realPower / (measurePhase s).apparentPower| 0 1) ∧
      (¬ (measurePhase s).apparentPower > 0 → (measurePhase s).powerFactor = 0) ∧
      (measurePhase s).reactivePower =
        Real.sqrt (max 0 ((measurePhase s).apparentPower ^ 2 -
          (measurePhase s).realPower ^ 2))) := by
  have hl : ((s.length : ℕ) : ℝ) = (totalSamples : ℝ) := by rw [h]
  refine ⟨?_, ?_, ?_⟩
  · rw [measurePhase_voltageRms, voltageRmsOf_eq, sumVSqL, hl]
  · rw [measurePhase_currentRms, currentRmsOf_eq, sumISqL, hl]
  · intro hcg
    rw [measurePhase_currentRms] at hcg
    rw [measurePhase_of_pos s hcg]
    refine ⟨?_, rfl, ?_, ?_, ?_⟩
    · rw [realPowerOf_eq, sumVIL, hl]
    · intro hS
      rw [powerFactorOf, if_pos hS, abs_constrain]
    · intro hS
      rw [powerFactorOf, if_neg hS]
    · rw [reactivePowerOf]
      ring_nf

theorem measurePhase_formulas_witness :
    (measurePhase sZero).currentRms =
      Real.sqrt ((sZero.map fun p => ampsOf p.2 ^ 2).sum / (totalSamples : ℝ)) :=
  (measurePhase_formulas sZero sZero_length).2.1

/-- Claim C2: whenever the computed `currentRms` is at or below the noise
floor 0.05, every derived power field and the power factor of the returned
`PhaseData` is exactly 0. -/
theorem measurePhase_noise_floor_zeroes (s : List (ℝ × ℝ))
    (h : (measurePhase s).currentRms ≤ 0.05) :
    (measurePhase s).realPower = 0 ∧ (measurePhase s).apparentPower = 0 ∧
    (measurePhase s).reactivePower = 0 ∧ (measurePhase s).powerFactor = 0 := by
  rw [measurePhase_currentRms] at h
  rw [measurePhase_of_le s (not_lt.mpr h)]
  exact ⟨rfl, rfl, rfl, rfl⟩

theorem measurePhase_noise_floor_zeroes_witness :
    (measurePhase sZero).realPower = 0 ∧ (measurePhase sZero).apparentPower = 0 ∧
    (measurePhase sZero).reactivePower = 0 ∧ (measurePhase sZero).powerFactor = 0 :=
  measurePhase_noise_floor_zeroes sZero
    (by rw [measurePhase_currentRms, sZero_currentRms]; norm_num)

/-- Claim C3: every `measurePhase` result has `powerFactor` in `[0,1]`,
nonnegative `apparentPower`, and `reactivePower = sqrt(max 0
(apparentPower^2 - realPower^2))`; and the overall power
factor also lies in `[0,1]`. -/
theorem pf_bounds_invariants :
    (∀ s : List (ℝ × ℝ),
      0 ≤ (measurePhase s).powerFactor ∧ (measurePhase s).powerFactor ≤ 1 ∧
      0 ≤ (measurePhase s).apparentPower ∧
      (measurePhase s).reactivePower =
        Real.sqrt (max 0 ((measurePhase s).apparentPower ^ 2 -
          (measurePhase s).realPower ^ 2))) ∧
    (∀ p1 p2 p3 : PhaseData,
      0 ≤ (aggregate [p1, p2, p3]).overallPF ∧ (aggregate [p1, p2, p3]).overallPF ≤ 1) := by
  constructor
  · intro s
    by_cases hc : currentRmsOf s > 0.05
    · rw [measurePhase_of_pos s hc]
      refine ⟨powerFactorOf_nonneg s, powerFactorOf_le_one s, apparentPowerOf_nonneg s, ?_⟩
      rw [reactivePowerOf]
      ring_nf
    · rw [measurePhase_of_le s hc]
      refine ⟨le_refl 0, by norm_num, le_refl 0, ?_⟩
      simp
  · intro p1 p2 p3
    by_cases h : (totalsOf [p1, p2, p3]).2 > 0
    · rw [aggregate_of_pos _ h]
      exact ⟨le_constrain _ _ _ (by norm_num), constrain_le _ _ _ (by norm_num)⟩
    · rw [aggregate_of_le _ h]
      norm_num

/-- Claim C4: aggregating three `PhaseData` records (which, per the data
model, carry nonnegative apparent power) produces the arithmetic sums of
real and apparent power, `overallPF = clamp(|totalReal/totalApparent|, 0, 1)`
when `totalApparent > 0` and `0` otherwise, and a total reactive power
recomputed as `sqrt(max 0 (totalApparent^2 - totalReal^2))` from the
aggregated totals. -/
theorem aggregate_totals_formula (p1 p2 p3 : PhaseData)
    (h1 : 0 ≤ p1.apparentPower) (h2 : 0 ≤ p2.apparentPower) (h3 : 0 ≤ p3.apparentPower) :
    (aggregate [p1, p2, p3]).totalRealPower =
      p1.realPower + p2.realPower + p3.realPower ∧
    (aggregate [p1, p2, p3]).totalApparentPower =
      p1.apparentPower + p2.apparentPower + p3.apparentPower ∧
    ((aggregate [p1, p2, p3]).totalApparentPower > 0 →
      (aggregate [p1, p2, p3]).overallPF =
        constrain |(aggregate [p1, p2, p3]).totalRealPower /
          (aggregate [p1, p2, p3]).totalApparentPower| 0 1) ∧
    (¬ (aggregate [p1, p2, p3]).totalApparentPower > 0 →
      (aggregate [p1, p2, p3]).overallPF = 0) ∧
    (aggregate [p1, p2, p3]).totalReactivePower =
      Real.sqrt (max 0 ((aggregate [p1, p2, p3]).totalApparentPower ^ 2 -
        (aggregate [p1, p2, p3]).totalRealPower ^ 2)) := by
  by_cases h : (totalsOf [p1, p2, p3]).2 > 0
  · rw [aggregate_of_pos _ h]
    refine ⟨?_, ?_, fun _ => rfl, fun hn => absurd h hn, ?_⟩
    · rw [totalsOf_triple]
    · rw [totalsOf_triple]
    · ring_nf
  · rw [aggregate_of_le _ h]
    have ht2 : (totalsOf [p1, p2, p3]).2 = 0 := by
      refine le_antisymm (not_lt.mp h) ?_
      rw [totalsOf_triple]
      exact add_nonneg (add_nonneg h1 h2) h3
    refine ⟨?_, ?_, fun hp => absurd hp h, fun _ => rfl, ?_⟩
    · rw [totalsOf_triple]
    · rw [totalsOf_triple]
    · rw [ht2]
      rw [show max 0 ((0 : ℝ) ^ 2 - (totalsOf [p1, p2, p3]).1 ^ 2) = 0 by
        rw [max_eq_left]
        nlinarith [sq_nonneg (totalsOf [p1, p2, p3]).1]]
      rw [Real.sqrt_zero]

theorem aggregate_totals_formula_witness :
    (aggregate [pOnes, pOnes, pOnes]).totalRealPower =
      pOnes.realPower + pOnes.realPower + pOnes.realPower :=
  (aggregate_totals_formula pOnes pOnes pOnes (by norm_num [pOnes])
    (by norm_num [pOnes]) (by norm_num [pOnes])).1

/-- Claim C5: the alert flag is raised if and only if some phase has
`powerFactor` strictly between 0.01 and the threshold; in particular, with
the configured threshold 0.85, `powerFactor = 0` raises no alert,
`powerFactor = 0.5` raises the alert, and `powerFactor = 0.9` does not. -/
theorem alert_iff_low_pf :
    (∀ (th : ℝ) (p1 p2 p3 : PhaseData), anyLowPF th [p1, p2, p3] ↔
      ((p1.powerFactor > 0.01 ∧ p1.powerFactor < th) ∨
       (p2.powerFactor > 0.01 ∧ p2.powerFactor < th) ∨
       (p3.powerFactor > 0.01 ∧ p3.powerFactor < th))) ∧
    ¬ anyLowPF PF_THRESHOLD [pfPhase 0, pfPhase 0, pfPhase 0] ∧
    anyLowPF PF_THRESHOLD [pfPhase 0.5, pfPhase 0.5, pfPhase 0.5] ∧
    ¬ anyLowPF PF_THRESHOLD [pfPhase 0.9, pfPhase 0.9, pfPhase 0.9] := by
  refine ⟨anyLowPF_triple, ?_, ?_, ?_⟩
  · rw [anyLowPF_triple]
    norm_num [pfPhase]
  · rw [anyLowPF_triple]
    left
    constructor <;> norm_num [pfPhase, PF_THRESHOLD]
  · rw [anyLowPF_triple]
    norm_num [pfPhase, PF_THRESHOLD]

/-- Claim C6: the embedding of `measurePhase` is total (no exceptions); the
division by `apparentPower` happens only under the guard `apparentPower > 0`
(otherwise `powerFactor` is left at 0), all other divisors are the nonzero
constants `ADC_MAX`, `ACS712_SENSITIVITY` or the positive `totalSamples`
count, and degenerate inputs resolve to the all-zero power fields. -/
theorem measurePhase_guarded_division :
    (0 : ℝ) < (totalSamples : ℝ) ∧ ADC_MAX ≠ 0 ∧ ACS712_SENSITIVITY ≠ 0 ∧
    (∀ s : List (ℝ × ℝ),
      0 < (measurePhase s).apparentPower ∨ (measurePhase s).powerFactor = 0) ∧
    (∀ s : List (ℝ × ℝ), (measurePhase s).currentRms ≤ 0.05 →
      (measurePhase s).realPower = 0 ∧ (measurePhase s).apparentPower = 0 ∧
      (measurePhase s).reactivePower = 0 ∧ (measurePhase s).powerFactor = 0) := by
  refine ⟨?_, ?_, ?_, ?_, ?_⟩
  · norm_num [totalSamples, SAMPLES_PER_CYCLE, NUM_CYCLES]
  · norm_num [ADC_MAX]
  · norm_num [ACS712_SENSITIVITY]
  · intro s
    by_cases hc : currentRmsOf s > 0.05
    · by_cases hS : apparentPowerOf s > 0
      · left
        rw [measurePhase_of_pos s hc]
        exact hS
      · right
        rw [measurePhase_of_pos s hc]
        show powerFactorOf s = 0
        rw [powerFactorOf, if_neg hS]
    · right
      rw [measurePhase_of_le s hc]
  · intro s h
    rw [measurePhase_currentRms] at h
    rw [measurePhase_of_le s (not_lt.mpr h)]
    exact ⟨rfl, rfl, rfl, rfl⟩

/-- Claim C7, counterexample to the literal statement: `mBad` is a
`PhaseData` record obeying the stated invariants of the data model but whose
`powerFactor` field (0.3) is not `clamp(|realPower/apparentPower|, 0, 1)`;
aggregating three copies of it yields an overall power factor of 1, not
0.3. -/
theorem aggregate_identical_phases_cex :
    (aggregate [mBad, mBad, mBad]).overallPF ≠ mBad.powerFactor := by
  have ht : totalsOf [mBad, mBad, mBad] = (3, 3) := by
    rw [totalsOf_triple]
    norm_num [mBad]
  have h3 : (totalsOf [mBad, mBad, mBad]).2 > 0 := by
    rw [ht]
    norm_num
  rw [aggregate_of_pos _ h3, ht]
  show constrain |(3 : ℝ) / 3| 0 1 ≠ mBad.powerFactor
  rw [show |(3 : ℝ) / 3| = 1 by norm_num]
  norm_num [constrain, mBad]

/-- Claim C7, amended: aggregating three copies of any phase actually
produced by `measurePhase` (whose `powerFactor` field is consistent with its
power fields) yields an overall power factor equal to its own
power factor. -/
theorem aggregate_identical_measured_phases_pf (s : List (ℝ × ℝ)) :
    (aggregate [measurePhase s, measurePhase s, measurePhase s]).overallPF =
      (measurePhase s).powerFactor := by
  by_cases hc : currentRmsOf s > 0.05
  · rw [measurePhase_of_pos s hc]
    have ht : totalsOf [(⟨voltageRmsOf s, currentRmsOf s, powerFactorOf s, realPowerOf s,
        apparentPowerOf s, reactivePowerOf s⟩ : PhaseData),
        ⟨voltageRmsOf s, currentRmsOf s, powerFactorOf s, realPowerOf s,
        apparentPowerOf s, reactivePowerOf s⟩,
        ⟨voltageRmsOf s, currentRmsOf s, powerFactorOf s, realPowerOf s,
        apparentPowerOf s, reactivePowerOf s⟩] =
        (realPowerOf s + realPowerOf s + realPowerOf s,
         apparentPowerOf s + apparentPowerOf s + apparentPowerOf s) := by
      rw [totalsOf_triple]
    rcases (apparentPowerOf_nonneg s).lt_or_eq with hS | hS
    · have hpos : (totalsOf [(⟨voltageRmsOf s, currentRmsOf s, powerFactorOf s, realPowerOf s,
          apparentPowerOf s, reactivePowerOf s⟩ : PhaseData),
          ⟨voltageRmsOf s, currentRmsOf s, powerFactorOf s, realPowerOf s,
          apparentPowerOf s, reactivePowerOf s⟩,
          ⟨voltageRmsOf s, currentRmsOf s, powerFactorOf s, realPowerOf s,
          apparentPowerOf s, reactivePowerOf s⟩]).2 > 0 := by
        rw [ht]
        dsimp only
        linarith
      rw [aggregate_of_pos _ hpos, ht]
      show constrain |(realPowerOf s + realPowerOf s + realPowerOf s) /
        (apparentPowerOf s + apparentPowerOf s + apparentPowerOf s)| 0 1 = powerFactorOf s
      have hq : (realPowerOf s + realPowerOf s + realPowerOf s) /
          (apparentPowerOf s + apparentPowerOf s + apparentPowerOf s) =
          realPowerOf s / apparentPowerOf s := by
        rw [show realPowerOf s + realPowerOf s + realPowerOf s = 3 * realPowerOf s by ring,
          show apparentPowerOf s + apparentPowerOf s + apparentPowerOf s =
            3 * apparentPowerOf s by ring]
        exact mul_div_mul_left _ _ (by norm_num)
      rw [hq, powerFactorOf, if_pos hS, abs_constrain]
    · have hneg : ¬ (totalsOf [(⟨voltageRmsOf s, currentRmsOf s, powerFactorOf s, realPowerOf s,
          apparentPowerOf s, reactivePowerOf s⟩ : PhaseData),
          ⟨voltageRmsOf s, currentRmsOf s, powerFactorOf s, realPowerOf s,
          apparentPowerOf s, reactivePowerOf s⟩,
          ⟨voltageRmsOf s, currentRmsOf s, powerFactorOf s, realPowerOf s,
          apparentPowerOf s, reactivePowerOf s⟩]).2 > 0 := by
        rw [ht]
        dsimp only
        rw [← hS]
        norm_num
      rw [aggregate_of_le _ hneg]
      show (0 : ℝ) = powerFactorOf s
      rw [powerFactorOf, if_neg (by rw [← hS]; norm_num)]
  · rw [measurePhase_of_le s hc]
    have hneg : ¬ (totalsOf [(⟨voltageRmsOf s, currentRmsOf s, 0, 0, 0, 0⟩ : PhaseData),
        ⟨voltageRmsOf s, currentRmsOf s, 0, 0, 0, 0⟩,
        ⟨voltageRmsOf s, currentRmsOf s, 0, 0, 0, 0⟩]).2 > 0 := by
      rw [totalsOf_triple]
      norm_num
    rw [aggregate_of_le _ hneg]

/-- Claim C8: when the decoded current is proportional (with positive
constant, i.e. in phase) to the decoded voltage at every sample and the
measured `currentRms` clears the noise floor, the returned power factor is
within 0.01 of 1 (it is in fact exactly 1). -/
theorem inphase_proportional_pf_near_one (s : List (ℝ × ℝ)) (c : ℝ) (hc : 0 < c)
    (hprop : ∀ p ∈ s, ampsOf p.2 = c * voltsOf p.1)
    (hcur : (measurePhase s).currentRms > 0.05) :
    |(measurePhase s).powerFactor - 1| ≤ 0.01 := by
  rw [measurePhase_currentRms] at hcur
  obtain ⟨hIsq, hVI⟩ := prop_sums c s hprop
  have hcr : currentRmsOf s = Real.sqrt (c ^ 2 * (sumVSqL s / (s.length : ℝ))) := by
    rw [currentRmsOf_eq, hIsq, mul_div_assoc]
  have hpos : 0 < c ^ 2 * (sumVSqL s / (s.length : ℝ)) := by
    have h1 : 0 < currentRmsOf s := lt_trans (by norm_num) hcur
    rw [hcr] at h1
    exact Real.sqrt_pos.mp h1
  have hA : 0 < sumVSqL s / (s.length : ℝ) := by
    rcases mul_pos_iff.mp hpos with ⟨_, hX⟩ | ⟨hneg, _⟩
    · exact hX
    · nlinarith [sq_nonneg c]
  have hsq : 0 < Real.sqrt (sumVSqL s / (s.length : ℝ)) := Real.sqrt_pos.mpr hA
  have hcr2 : currentRmsOf s = c * Real.sqrt (sumVSqL s / (s.length : ℝ)) := by
    rw [hcr, Real.sqrt_mul (sq_nonneg c), Real.sqrt_sq hc.le]
  have hSpos : 0 < apparentPowerOf s := by
    rw [apparentPowerOf, voltageRmsOf_eq, hcr2]
    exact mul_pos (mul_pos hsq VOLTAGE_CALIBRATION_pos) (mul_pos hc hsq)
  have hS : apparentPowerOf s =
      VOLTAGE_CALIBRATION * c * (sumVSqL s / (s.length : ℝ)) := by
    rw [apparentPowerOf, voltageRmsOf_eq, hcr2]
    have hms : Real.sqrt (sumVSqL s / (s.length : ℝ)) *
        Real.sqrt (sumVSqL s / (s.length : ℝ)) = sumVSqL s / (s.length : ℝ) :=
      Real.mul_self_sqrt hA.le
    calc Real.sqrt (sumVSqL s / (s.length : ℝ)) * VOLTAGE_CALIBRATION *
          (c * Real.sqrt (sumVSqL s / (s.length : ℝ)))
        = VOLTAGE_CALIBRATION * c * (Real.sqrt (sumVSqL s / (s.length : ℝ)) *
            Real.sqrt (sumVSqL s / (s.length : ℝ))) := by ring
      _ = VOLTAGE_CALIBRATION * c * (sumVSqL s / (s.length : ℝ)) := by rw [hms]
  have hP : realPowerOf s =
      c * (sumVSqL s / (s.length : ℝ)) * VOLTAGE_CALIBRATION := by
    rw [realPowerOf_eq, hVI, mul_div_assoc]
  have hd : VOLTAGE_CALIBRATION * c * (sumVSqL s / (s.length : ℝ)) ≠ 0 := by
    rw [← hS]
    exact ne_of_gt hSpos
  have hratio : realPowerOf s / apparentPowerOf s = 1 := by
    rw [hP, hS, div_eq_one_iff_eq hd]
    ring
  have hpf : powerFactorOf s = 1 := by
    rw [powerFactorOf, if_pos hSpos, hratio]
    norm_num [constrain]
  rw [measurePhase_of_pos s hcur]
  show |powerFactorOf s - 1| ≤ 0.01
  rw [hpf]
  norm_num

theorem inphase_proportional_pf_near_one_witness :
    |(measurePhase sFull).powerFactor - 1| ≤ 0.01 :=
  inphase_proportional_pf_near_one sFull (500 / 33)
    (by norm_num)
    (by
      intro p hp
      have hp2 : p = ((4095 : ℝ), (4095 : ℝ)) :=
        List.eq_of_mem_replicate (by simpa [sFull] using hp)
      rw [hp2]
      show ampsOf 4095 = 500 / 33 * voltsOf 4095
      rw [ampsOf_full, voltsOf_full]
      norm_num)
    (by rw [measurePhase_currentRms, sFull_currentRms]; norm_num)

/-- Claim C9: the retained previous-sample values `prevV`/`prevI` are dead:
the measurement with those assignments removed is extensionally equal to the
original on every input stream. -/
theorem measurePhase_prev_removed_eq (s : List (ℝ × ℝ)) :
    measurePhaseNP s = measurePhase s := by
  simp only [measurePhaseNP, accumulateNP_eq, measurePhase, voltageRmsOf, currentRmsOf,
    powerFactorOf, realPowerOf, apparentPowerOf, reactivePowerOf]

/-- Claim C10: clamping to `[-1,1]` then taking the absolute value is the
same real function as taking the absolute value then clamping to `[0,1]`, so
the per-phase and overall power-factor computations implement the same
`clamp(|P/S|, 0, 1)` formula. -/
theorem abs_constrain_eq_constrain_abs (x : ℝ) :
    |constrain x (-1) 1| = constrain |x| 0 1 :=
  abs_constrain x

end

end PFMon
